import Mathlib

/-!
Verification of the Blockly XML-to-Program transformer (`src/lib.rs`).

The transformer converts a parsed XML document (exposed by the external
`sxd_document` DOM library) into a `Program` of block groups.  We embed the
DOM as an inductive tree `XNode` (an element child in `sxd_document` is an
element, a text node, or another node kind such as a comment or processing
instruction; the latter are represented by the `comment` constructor, since
the source only ever distinguishes "text", "element" and "anything else").
Rust panics in the source are modelled as typed errors in `Except`: each
panic site corresponds to one `BuildError` constructor.  The external XML
text parser itself is not part of the repository; its outcome is modelled
as an `Option (List XNode)` input (the root's children on success, `none`
when the text does not parse).
-/

namespace Blockly

/-- A node of the parsed XML document tree, mirroring the `sxd_document`
DOM's `ChildOfElement`/`ChildOfRoot` views: an element with a local name,
attributes and ordered children, a text node, or some other node kind
(comment / processing instruction), which the source code never inspects
beyond "not an element, not text". -/
inductive XNode where
  | element (name : String) (attrs : List (String × String)) (children : List XNode)
  | text (content : String)
  | comment (content : String)

/-- Ordered children of a node (`Element::children` in the source); non-element
nodes have none. -/
def XNode.children : XNode → List XNode
  | .element _ _ cs => cs
  | _ => []

/-- Attributes of a node (`Element::attributes`); non-element nodes have none. -/
def XNode.attrs : XNode → List (String × String)
  | .element _ a _ => a
  | _ => []

/-- The local name of an element (`name().local_part()` in the source). -/
def XNode.localName : XNode → String
  | .element n _ _ => n
  | _ => ""

/- Node count of a DOM subtree, the termination measure for the builders. -/
mutual
def XNode.size : XNode → Nat
  | .element _ _ cs => XNode.sizeList cs + 1
  | .text _ => 1
  | .comment _ => 1

def XNode.sizeList : List XNode → Nat
  | [] => 0
  | c :: cs => XNode.size c + XNode.sizeList cs
end

/-- Size of an optional node (`none` stands for "no starting element"). -/
def XNode.sizeOpt : Option XNode → Nat
  | none => 0
  | some e => XNode.size e

/- The output data model of the transformer (`Program`, `StatementBody`,
`Block`, `FieldValue` in the source).  The `HashMap`s for fields and
statements are modelled as key-unique association lists with
overwrite-on-insert (`mapInsert` below), which realises exactly the
`HashMap::insert` semantics the source relies on. -/
mutual
inductive Block where
  | mk (block_type : String) (id : String)
      (fields : List (String × FieldValue))
      (statements : List (String × StatementBody)) : Block

inductive StatementBody where
  | mk (blocks : List Block) : StatementBody

inductive FieldValue where
  | SimpleField (value : String) : FieldValue
  | ExpressionField (block : Block) : FieldValue
end

def Block.block_type : Block → String
  | .mk t _ _ _ => t

def Block.id : Block → String
  | .mk _ i _ _ => i

def Block.fields : Block → List (String × FieldValue)
  | .mk _ _ f _ => f

def Block.statements : Block → List (String × StatementBody)
  | .mk _ _ _ s => s

def StatementBody.blocks : StatementBody → List Block
  | .mk bs => bs

theorem Block.block_type_mk (t i : String) (f : List (String × FieldValue))
    (s : List (String × StatementBody)) : (Block.mk t i f s).block_type = t := rfl

theorem Block.id_mk (t i : String) (f : List (String × FieldValue))
    (s : List (String × StatementBody)) : (Block.mk t i f s).id = i := rfl

theorem Block.fields_mk (t i : String) (f : List (String × FieldValue))
    (s : List (String × StatementBody)) : (Block.mk t i f s).fields = f := rfl

theorem Block.statements_mk (t i : String) (f : List (String × FieldValue))
    (s : List (String × StatementBody)) : (Block.mk t i f s).statements = s := rfl

theorem StatementBody.blocks_mk (bs : List Block) :
    (StatementBody.mk bs).blocks = bs := rfl

/-- The top-level output: one `StatementBody` group per top-level block chain. -/
structure Program where
  groups : List StatementBody

/-- The error taxonomy.  Each constructor corresponds to one panic site of the
source: `DocumentSyntaxError` to `expect("Failed to parse XML!")`,
`MissingRootElement` to `panic!("Cannot find xml element!")`,
`MissingAttribute` to the `unwrap()` of `get_attribute(.., "name")` on a
`statement` or `field` child (the element field records which child kind's
unwrap fired, the attribute field the looked-up attribute name),
`EmptyField` to `panic!("Expected child nodes for field")`, and
`UnimplementedExpressionField` to `panic!("TODO: Implement expression fields")`. -/
inductive BuildError where
  | DocumentSyntaxError
  | MissingRootElement
  | MissingAttribute (element : String) (attrName : String)
  | EmptyField
  | UnimplementedExpressionField
deriving DecidableEq

/-- Key-unique association-list insert with overwrite (the behaviour of
`HashMap::insert` as far as lookups are concerned). -/
def mapInsert {α : Type} : List (String × α) → String → α → List (String × α)
  | [], key, value => [(key, value)]
  | (k, v) :: rest, key, value =>
    if k = key then (key, value) :: rest else (k, v) :: mapInsert rest key value

/-- Loop of `get_attribute` from the source: first attribute whose local name
matches the requested one. -/
def goAttrs : List (String × String) → String → Option String
  | [], _ => none
  | (n, v) :: rest, attribute_name =>
    if n = attribute_name then some v else goAttrs rest attribute_name

/-- `get_attribute` from the source: first attribute whose local name matches. -/
def get_attribute (element : XNode) (attribute_name : String) : Option String :=
  goAttrs element.attrs attribute_name

/-- First element among a list of children (loop of `get_first_child_element`). -/
def first_element : List XNode → Option XNode
  | [] => none
  | c :: rest =>
    match c with
    | .element _ _ _ => some c
    | _ => first_element rest

/-- `get_first_child_element` from the source. -/
def get_first_child_element (element : XNode) : Option XNode :=
  first_element element.children

/-- First element child carrying a given local name (the search loops inside
`get_next_block_element` and `get_xml_element`). -/
def find_element_named (name : String) : List XNode → Option XNode
  | [] => none
  | c :: rest =>
    match c with
    | .element n _ _ => if n = name then some c else find_element_named name rest
    | _ => find_element_named name rest

/-- `get_next_block_element` from the source: first child element named
`next`, then the first of its child elements named `block`. -/
def get_next_block_element (block_el : XNode) : Option XNode :=
  match find_element_named "next" block_el.children with
  | none => none
  | some next_el => find_element_named "block" next_el.children

/-- `FieldValue::new` from the source: the loop body returns on a text first
child and panics on any other first child, so only the first child is ever
inspected; an empty child list panics with the "expected child nodes" message. -/
def FieldValue.new (field_el : XNode) : Except BuildError FieldValue :=
  match field_el.children with
  | [] => Except.error BuildError.EmptyField
  | child :: _ =>
    match child with
    | .text value => Except.ok (FieldValue.SimpleField value)
    | _ => Except.error BuildError.UnimplementedExpressionField

/-- The attribute scan at the start of `Block::new`: an attribute named
`type` sets `block_type`, one named `id` sets `id`, all others are ignored. -/
def apply_attributes : List (String × String) → Block → Block
  | [], block => block
  | (name, value) :: rest, block =>
    apply_attributes rest
      (if name = "type" then
        Block.mk value block.id block.fields block.statements
      else if name = "id" then
        Block.mk block.block_type value block.fields block.statements
      else block)

theorem XNode.size_pos (n : XNode) : 0 < n.size := by
  cases n <;> simp [XNode.size]

theorem XNode.size_le_sizeList_of_mem {c : XNode} {cs : List XNode}
    (h : c ∈ cs) : c.size ≤ XNode.sizeList cs := by
  induction cs with
  | nil => cases h
  | cons x xs ih =>
    rcases List.mem_cons.mp h with h | h
    · subst h; simp [XNode.sizeList]
    · have := ih h
      simp [XNode.sizeList]
      omega

theorem XNode.sizeList_children_lt (n : XNode) :
    XNode.sizeList n.children < n.size := by
  cases n <;> simp [XNode.children, XNode.size, XNode.sizeList]

theorem mem_of_find_element_named {name : String} {cs : List XNode} {el : XNode}
    (h : find_element_named name cs = some el) : el ∈ cs := by
  induction cs with
  | nil => simp [find_element_named] at h
  | cons c rest ih =>
    cases c with
    | element n a ch =>
      by_cases hn : n = name
      · subst hn
        simp [find_element_named] at h
        rw [← h]
        exact List.mem_cons_self _ _
      · simp [find_element_named, hn] at h
        exact List.mem_cons_of_mem _ (ih h)
    | text s =>
      simp [find_element_named] at h
      exact List.mem_cons_of_mem _ (ih h)
    | comment s =>
      simp [find_element_named] at h
      exact List.mem_cons_of_mem _ (ih h)

theorem mem_of_first_element {cs : List XNode} {el : XNode}
    (h : first_element cs = some el) : el ∈ cs := by
  induction cs with
  | nil => simp [first_element] at h
  | cons c rest ih =>
    cases c with
    | element n a ch =>
      simp [first_element] at h
      simp [← h]
    | text s =>
      simp [first_element] at h
      exact List.mem_cons_of_mem _ (ih h)
    | comment s =>
      simp [first_element] at h
      exact List.mem_cons_of_mem _ (ih h)

theorem XNode.size_lt_of_find_element_named {name : String} {el : XNode} {found : XNode}
    (h : find_element_named name el.children = some found) :
    found.size < el.size := by
  have h1 := XNode.size_le_sizeList_of_mem (mem_of_find_element_named h)
  have h2 := XNode.sizeList_children_lt el
  omega

theorem XNode.size_lt_of_get_next {el : XNode} {nb : XNode}
    (h : get_next_block_element el = some nb) : nb.size < el.size := by
  unfold get_next_block_element at h
  cases hfind : find_element_named "next" el.children with
  | none => rw [hfind] at h; cases h
  | some next_el =>
    rw [hfind] at h
    have h1 := XNode.size_le_sizeList_of_mem (mem_of_find_element_named h)
    have h2 := XNode.sizeList_children_lt next_el
    have h3 := XNode.size_lt_of_find_element_named hfind
    omega

theorem XNode.sizeOpt_get_first_child_lt (el : XNode) :
    XNode.sizeOpt (get_first_child_element el) < el.size := by
  cases hfc : get_first_child_element el with
  | none =>
    have := XNode.size_pos el
    simp [XNode.sizeOpt]
    omega
  | some c =>
    unfold get_first_child_element at hfc
    have h1 := XNode.size_le_sizeList_of_mem (mem_of_first_element hfc)
    have h2 := XNode.sizeList_children_lt el
    simp [XNode.sizeOpt]
    omega

theorem XNode.dec_statement_body (n : String) (a : List (String × String))
    (cc : List XNode) (rest : List XNode) :
    3 * XNode.sizeOpt (get_first_child_element (XNode.element n a cc)) + 3 <
      3 * XNode.sizeList (XNode.element n a cc :: rest) + 1 := by
  have h1 := XNode.sizeOpt_get_first_child_lt (XNode.element n a cc)
  have h2 : (XNode.element n a cc).size ≤
      XNode.sizeList (XNode.element n a cc :: rest) := by
    simp [XNode.sizeList]
  omega

theorem XNode.dec_rest (c : XNode) (rest : List XNode) :
    3 * XNode.sizeList rest + 1 < 3 * XNode.sizeList (c :: rest) + 1 := by
  have := XNode.size_pos c
  simp [XNode.sizeList]
  omega

/- The mutually recursive builders.  `Block.new` is `Block::new` from the
source, split into the attribute scan (`apply_attributes`) and the child scan
(`Block.processChildren`, the source's `for child in block_el.children()`
loop carried out on the remaining children).  `StatementBody.new` is
`StatementBody::new`; its loop ("push the block built from the current
element, then move to `get_next_block_element` if there is one") is the
recursion `StatementBody.chain`.  A Rust panic anywhere aborts the whole
construction, which the `Except` monad realises. -/
mutual
def Block.new (block_el : XNode) : Except BuildError Block :=
  Block.processChildren block_el.children
    (apply_attributes block_el.attrs (Block.mk "" "" [] []))
termination_by 3 * block_el.size + 1
decreasing_by
  have := XNode.sizeList_children_lt block_el
  omega

def Block.processChildren (children : List XNode) (block : Block) :
    Except BuildError Block :=
  match children with
  | [] => Except.ok block
  | child :: rest =>
    match child with
    | .element child_name cattrs cchildren =>
      if child_name = "statement" then
        match get_attribute (.element child_name cattrs cchildren) "name" with
        | none => Except.error (BuildError.MissingAttribute child_name "name")
        | some statement_name => do
          let statement_body ←
            StatementBody.new
              (get_first_child_element (.element child_name cattrs cchildren))
          Block.processChildren rest
            (Block.mk block.block_type block.id block.fields
              (mapInsert block.statements statement_name statement_body))
      else if child_name = "field" then
        match get_attribute (.element child_name cattrs cchildren) "name" with
        | none => Except.error (BuildError.MissingAttribute child_name "name")
        | some field_name => do
          let field_value ← FieldValue.new (.element child_name cattrs cchildren)
          Block.processChildren rest
            (Block.mk block.block_type block.id
              (mapInsert block.fields field_name field_value) block.statements)
      else
        Block.processChildren rest block
    | _ => Block.processChildren rest block
termination_by 3 * XNode.sizeList children + 1
decreasing_by
  all_goals
    first
    | exact XNode.dec_statement_body _ _ _ _
    | exact XNode.dec_rest _ _

def StatementBody.new : Option XNode → Except BuildError StatementBody
  | none => Except.ok (StatementBody.mk [])
  | some el => StatementBody.chain el
termination_by o => 3 * XNode.sizeOpt o + 3
decreasing_by
  simp only [XNode.sizeOpt]
  omega

def StatementBody.chain (block_el : XNode) : Except BuildError StatementBody := do
  let block ← Block.new block_el
  match h : get_next_block_element block_el with
  | none => Except.ok (StatementBody.mk [block])
  | some next_el => do
    let rest ← StatementBody.chain next_el
    Except.ok (StatementBody.mk (block :: rest.blocks))
termination_by 3 * block_el.size + 2
decreasing_by
  · omega
  · have := XNode.size_lt_of_get_next h
    omega
end

/-- `get_xml_element` from the source: the first element among the document
root's children whose local name is `xml` (`none` models the source's
"Cannot find xml element!" panic, raised by the caller). -/
def get_xml_element (root_children : List XNode) : Option XNode :=
  find_element_named "xml" root_children

/-- The `for child in xml_element.children()` loop of `program_from_xml`:
each child element named `block` starts a chain that is resolved and pushed
as a group; every other child (including a `variables` element and
non-element nodes) is skipped. -/
def build_groups : List XNode → Except BuildError (List StatementBody)
  | [] => Except.ok []
  | child :: rest =>
    match child with
    | .element n a ch =>
      if n = "block" then do
        let group ← StatementBody.new (some (XNode.element n a ch))
        let groups ← build_groups rest
        Except.ok (group :: groups)
      else build_groups rest
    | _ => build_groups rest

/-- `program_from_xml` from the source.  The external XML text parser
(`sxd_document::parser::parse`, the Document Adapter of the design) is not
part of this repository; its outcome is the input here: `none` when the text
is malformed (the source's `expect("Failed to parse XML!")`, modelled as
`DocumentSyntaxError`), or `some root_children` with the parsed document
root's children. -/
def program_from_xml (parse_result : Option (List XNode)) :
    Except BuildError Program :=
  match parse_result with
  | none => Except.error BuildError.DocumentSyntaxError
  | some root_children =>
    match get_xml_element root_children with
    | none => Except.error BuildError.MissingRootElement
    | some xml_element => do
      let groups ← build_groups xml_element.children
      Except.ok (Program.mk groups)

/-! Helper lemmas about the builders. -/

theorem mapInsert_lookup_self {α : Type} (m : List (String × α)) (k : String) (v : α) :
    (mapInsert m k v).lookup k = some v := by
  induction m with
  | nil => simp [mapInsert, List.lookup]
  | cons p rest ih =>
    obtain ⟨k', v'⟩ := p
    by_cases hk : k' = k
    · simp [mapInsert, hk, List.lookup]
    · have hbeq : (k == k') = false := by simp [Ne.symm hk]
      simp [mapInsert, hk, List.lookup, hbeq, ih]

theorem mapInsert_lookup_ne {α : Type} (m : List (String × α)) (k k' : String) (v : α)
    (h : k' ≠ k) : (mapInsert m k v).lookup k' = m.lookup k' := by
  have hbeq : (k' == k) = false := by simp [h]
  induction m with
  | nil => simp [mapInsert, List.lookup, hbeq]
  | cons p rest ih =>
    obtain ⟨k0, v0⟩ := p
    by_cases hk : k0 = k
    · subst hk
      simp [mapInsert, List.lookup, hbeq]
    · by_cases he : k' = k0
      · simp [mapInsert, hk, List.lookup, he]
      · have hb2 : (k' == k0) = false := by simp [he]
        simp [mapInsert, hk, List.lookup, hb2, ih]

theorem Block.processChildren_append (xs ys : List XNode) (b : Block) :
    Block.processChildren (xs ++ ys) b =
      (Block.processChildren xs b).bind (fun b' => Block.processChildren ys b') := by
  induction xs generalizing b with
  | nil => simp [Block.processChildren, Except.bind]
  | cons c rest ih =>
    cases c with
    | element n a ch =>
      by_cases hs : n = "statement"
      · subst hs
        simp only [List.cons_append, Block.processChildren, Bind.bind]
        cases hga : get_attribute (XNode.element "statement" a ch) "name" with
        | none => simp [Except.bind]
        | some sn =>
          cases hsb : StatementBody.new
              (get_first_child_element (XNode.element "statement" a ch)) with
          | error e => simp [Except.bind]
          | ok sb => simp [Except.bind, ih]
      · by_cases hf : n = "field"
        · subst hf
          simp only [List.cons_append, Block.processChildren, Bind.bind]
          cases hga : get_attribute (XNode.element "field" a ch) "name" with
          | none => simp [Except.bind]
          | some fn =>
            cases hfv : FieldValue.new (XNode.element "field" a ch) with
            | error e => simp [Except.bind]
            | ok fv => simp [Except.bind, ih]
        · simp only [List.cons_append, Block.processChildren, if_neg hs, if_neg hf]
          exact ih b
    | text s =>
      simp only [List.cons_append, Block.processChildren]
      exact ih b
    | comment s =>
      simp only [List.cons_append, Block.processChildren]
      exact ih b

theorem StatementBody.new_none : StatementBody.new none = Except.ok (StatementBody.mk []) := by
  simp [StatementBody.new]

theorem StatementBody.new_some (el : XNode) :
    StatementBody.new (some el) = StatementBody.chain el := by
  simp [StatementBody.new]

theorem Block.new_eq (block_el : XNode) :
    Block.new block_el =
      Block.processChildren block_el.children
        (apply_attributes block_el.attrs (Block.mk "" "" [] [])) := by
  rw [Block.new]

theorem StatementBody.chain_eq (el : XNode) :
    StatementBody.chain el =
      (Block.new el).bind (fun block =>
        match get_next_block_element el with
        | none => Except.ok (StatementBody.mk [block])
        | some next_el =>
          (StatementBody.chain next_el).bind (fun rest =>
            Except.ok (StatementBody.mk (block :: rest.blocks)))) := by
  rw [StatementBody.chain]
  cases hb : Block.new el with
  | error e => simp [Bind.bind, Except.bind]
  | ok block =>
    simp only [Bind.bind, Except.bind]
    cases hn : get_next_block_element el with
    | none => rfl
    | some next_el => rfl

theorem Block.processChildren_type_id (cs : List XNode) (b b' : Block)
    (hok : Block.processChildren cs b = Except.ok b') :
    b'.block_type = b.block_type ∧ b'.id = b.id := by
  induction cs generalizing b with
  | nil =>
    simp [Block.processChildren] at hok
    rw [hok]
    exact ⟨rfl, rfl⟩
  | cons c rest ih =>
    cases c with
    | element n a ch =>
      by_cases hs : n = "statement"
      · subst hs
        simp only [Block.processChildren, Bind.bind] at hok
        cases hga : get_attribute (XNode.element "statement" a ch) "name" with
        | none => rw [hga] at hok; cases hok
        | some sn =>
          rw [hga] at hok
          cases hsb : StatementBody.new
              (get_first_child_element (XNode.element "statement" a ch)) with
          | error e => rw [hsb] at hok; cases hok
          | ok sb =>
            rw [hsb] at hok
            simp only [Except.bind] at hok
            simp at hok
            simpa [Block.block_type, Block.id] using ih _ hok
      · by_cases hf : n = "field"
        · subst hf
          simp only [Block.processChildren, Bind.bind] at hok
          cases hga : get_attribute (XNode.element "field" a ch) "name" with
          | none => rw [hga] at hok; cases hok
          | some fn =>
            rw [hga] at hok
            cases hfv : FieldValue.new (XNode.element "field" a ch) with
            | error e => rw [hfv] at hok; cases hok
            | ok fv =>
              rw [hfv] at hok
              simp only [Except.bind] at hok
              simp at hok
              simpa [Block.block_type, Block.id] using ih _ hok
        · simp only [Block.processChildren, if_neg hs, if_neg hf] at hok
          exact ih _ hok
    | text s =>
      simp only [Block.processChildren] at hok
      exact ih _ hok
    | comment s =>
      simp only [Block.processChildren] at hok
      exact ih _ hok

theorem Block.processChildren_fields_lookup (cs : List XNode) (b b' : Block) (F : String)
    (hok : Block.processChildren cs b = Except.ok b')
    (hno : ∀ n a ch, XNode.element n a ch ∈ cs → n = "field" →
      get_attribute (XNode.element n a ch) "name" ≠ some F) :
    b'.fields.lookup F = b.fields.lookup F := by
  induction cs generalizing b with
  | nil =>
    simp [Block.processChildren] at hok
    rw [hok]
  | cons c rest ih =>
    have hno' : ∀ n a ch, XNode.element n a ch ∈ rest → n = "field" →
        get_attribute (XNode.element n a ch) "name" ≠ some F := by
      intro n a ch hmem hn
      exact hno n a ch (List.mem_cons_of_mem _ hmem) hn
    cases c with
    | element n a ch =>
      by_cases hs : n = "statement"
      · subst hs
        simp only [Block.processChildren, Bind.bind] at hok
        cases hga : get_attribute (XNode.element "statement" a ch) "name" with
        | none => rw [hga] at hok; cases hok
        | some sn =>
          rw [hga] at hok
          cases hsb : StatementBody.new
              (get_first_child_element (XNode.element "statement" a ch)) with
          | error e => rw [hsb] at hok; cases hok
          | ok sb =>
            rw [hsb] at hok
            simp only [Except.bind] at hok
            simp at hok
            simpa [Block.fields_mk] using ih _ hok hno'
      · by_cases hf : n = "field"
        · subst hf
          simp only [Block.processChildren, Bind.bind] at hok
          cases hga : get_attribute (XNode.element "field" a ch) "name" with
          | none => rw [hga] at hok; cases hok
          | some fn =>
            rw [hga] at hok
            cases hfv : FieldValue.new (XNode.element "field" a ch) with
            | error e => rw [hfv] at hok; cases hok
            | ok fv =>
              rw [hfv] at hok
              simp only [Except.bind] at hok
              simp at hok
              have hne : F ≠ fn := by
                intro heq
                exact hno "field" a ch (List.mem_cons_self _ _) rfl (heq ▸ hga)
              have hstep := ih _ hok hno'
              simp only [Block.fields_mk] at hstep
              rw [hstep, mapInsert_lookup_ne _ _ _ _ hne]
        · simp only [Block.processChildren, if_neg hs, if_neg hf] at hok
          exact ih _ hok hno'
    | text s =>
      simp only [Block.processChildren] at hok
      exact ih _ hok hno'
    | comment s =>
      simp only [Block.processChildren] at hok
      exact ih _ hok hno'

theorem Block.processChildren_statements_lookup (cs : List XNode) (b b' : Block) (S : String)
    (hok : Block.processChildren cs b = Except.ok b')
    (hno : ∀ n a ch, XNode.element n a ch ∈ cs → n = "statement" →
      get_attribute (XNode.element n a ch) "name" ≠ some S) :
    b'.statements.lookup S = b.statements.lookup S := by
  induction cs generalizing b with
  | nil =>
    simp [Block.processChildren] at hok
    rw [hok]
  | cons c rest ih =>
    have hno' : ∀ n a ch, XNode.element n a ch ∈ rest → n = "statement" →
        get_attribute (XNode.element n a ch) "name" ≠ some S := by
      intro n a ch hmem hn
      exact hno n a ch (List.mem_cons_of_mem _ hmem) hn
    cases c with
    | element n a ch =>
      by_cases hs : n = "statement"
      · subst hs
        simp only [Block.processChildren, Bind.bind] at hok
        cases hga : get_attribute (XNode.element "statement" a ch) "name" with
        | none => rw [hga] at hok; cases hok
        | some sn =>
          rw [hga] at hok
          cases hsb : StatementBody.new
              (get_first_child_element (XNode.element "statement" a ch)) with
          | error e => rw [hsb] at hok; cases hok
          | ok sb =>
            rw [hsb] at hok
            simp only [Except.bind] at hok
            simp at hok
            have hne : S ≠ sn := by
              intro heq
              exact hno "statement" a ch (List.mem_cons_self _ _) rfl (heq ▸ hga)
            have hstep := ih _ hok hno'
            simp only [Block.statements_mk] at hstep
            rw [hstep, mapInsert_lookup_ne _ _ _ _ hne]
      · by_cases hf : n = "field"
        · subst hf
          simp only [Block.processChildren, Bind.bind] at hok
          cases hga : get_attribute (XNode.element "field" a ch) "name" with
          | none => rw [hga] at hok; cases hok
          | some fn =>
            rw [hga] at hok
            cases hfv : FieldValue.new (XNode.element "field" a ch) with
            | error e => rw [hfv] at hok; cases hok
            | ok fv =>
              rw [hfv] at hok
              simp only [Except.bind] at hok
              simp at hok
              simpa [Block.statements_mk] using ih _ hok hno'
        · simp only [Block.processChildren, if_neg hs, if_neg hf] at hok
          exact ih _ hok hno'
    | text s =>
      simp only [Block.processChildren] at hok
      exact ih _ hok hno'
    | comment s =>
      simp only [Block.processChildren] at hok
      exact ih _ hok hno'

theorem goAttrs_eq_none_of_not_mem (attrs : List (String × String)) (nm : String)
    (h : nm ∉ attrs.map Prod.fst) : goAttrs attrs nm = none := by
  induction attrs with
  | nil => rfl
  | cons p rest ih =>
    obtain ⟨n, v⟩ := p
    simp only [List.map_cons, List.mem_cons, not_or] at h
    have hn : ¬n = nm := fun hc => h.1 (hc.symm)
    simp [goAttrs, hn, ih h.2]

theorem apply_attributes_block_type (attrs : List (String × String)) (b : Block)
    (hnd : (attrs.map Prod.fst).Nodup) :
    (apply_attributes attrs b).block_type =
      match goAttrs attrs "type" with
      | some v => v
      | none => b.block_type := by
  induction attrs generalizing b with
  | nil => simp [apply_attributes, goAttrs]
  | cons p rest ih =>
    obtain ⟨n, v⟩ := p
    simp only [List.map_cons, List.nodup_cons] at hnd
    by_cases ht : n = "type"
    · subst ht
      have hnone := goAttrs_eq_none_of_not_mem rest "type" hnd.1
      simp [apply_attributes, goAttrs, ih _ hnd.2, hnone, Block.block_type_mk]
    · by_cases hi : n = "id"
      · subst hi
        cases hga : goAttrs rest "type" with
        | none =>
          simp [apply_attributes, goAttrs, ih _ hnd.2, hga, Block.block_type_mk]
        | some w => simp [apply_attributes, goAttrs, ih _ hnd.2, hga]
      · cases hga : goAttrs rest "type" with
        | none => simp [apply_attributes, goAttrs, ht, hi, ih _ hnd.2, hga]
        | some w => simp [apply_attributes, goAttrs, ht, hi, ih _ hnd.2, hga]

theorem apply_attributes_id (attrs : List (String × String)) (b : Block)
    (hnd : (attrs.map Prod.fst).Nodup) :
    (apply_attributes attrs b).id =
      match goAttrs attrs "id" with
      | some v => v
      | none => b.id := by
  induction attrs generalizing b with
  | nil => simp [apply_attributes, goAttrs]
  | cons p rest ih =>
    obtain ⟨n, v⟩ := p
    simp only [List.map_cons, List.nodup_cons] at hnd
    by_cases hi : n = "id"
    · subst hi
      have hnone := goAttrs_eq_none_of_not_mem rest "id" hnd.1
      simp [apply_attributes, goAttrs, ih _ hnd.2, hnone, Block.id_mk]
    · by_cases ht : n = "type"
      · subst ht
        cases hga : goAttrs rest "id" with
        | none => simp [apply_attributes, goAttrs, ih _ hnd.2, hga, Block.id_mk]
        | some w => simp [apply_attributes, goAttrs, ih _ hnd.2, hga]
      · cases hga : goAttrs rest "id" with
        | none => simp [apply_attributes, goAttrs, ht, hi, ih _ hnd.2, hga]
        | some w => simp [apply_attributes, goAttrs, ht, hi, ih _ hnd.2, hga]

theorem StatementBody.chain_eq_none (el : XNode)
    (hn : get_next_block_element el = none) :
    StatementBody.chain el =
      (Block.new el).bind (fun block => Except.ok (StatementBody.mk [block])) := by
  rw [StatementBody.chain_eq, hn]

theorem StatementBody.chain_eq_some (el nb : XNode)
    (hn : get_next_block_element el = some nb) :
    StatementBody.chain el =
      (Block.new el).bind (fun block =>
        (StatementBody.chain nb).bind (fun rest =>
          Except.ok (StatementBody.mk (block :: rest.blocks)))) := by
  rw [StatementBody.chain_eq, hn]

theorem StatementBody.chain_blocks_ne_nil (el : XNode) (sb : StatementBody)
    (h : StatementBody.chain el = Except.ok sb) : sb.blocks ≠ [] := by
  cases hn : get_next_block_element el with
  | none =>
    rw [StatementBody.chain_eq_none el hn] at h
    cases hb : Block.new el with
    | error e => rw [hb] at h; cases h
    | ok block =>
      rw [hb] at h
      simp only [Except.bind] at h
      injection h with h
      rw [← h]
      simp [StatementBody.blocks_mk]
  | some nb =>
    rw [StatementBody.chain_eq_some el nb hn] at h
    cases hb : Block.new el with
    | error e => rw [hb] at h; cases h
    | ok block =>
      rw [hb] at h
      simp only [Except.bind] at h
      cases hc : StatementBody.chain nb with
      | error e => rw [hc] at h; cases h
      | ok rest =>
        rw [hc] at h
        simp only [Except.bind] at h
        injection h with h
        rw [← h]
        simp [StatementBody.blocks_mk]

theorem build_groups_mem_ne_nil (cs : List XNode) (gs : List StatementBody)
    (h : build_groups cs = Except.ok gs) : ∀ g ∈ gs, g.blocks ≠ [] := by
  induction cs generalizing gs with
  | nil =>
    simp [build_groups] at h
    simp [h]
  | cons c rest ih =>
    cases c with
    | element n a ch =>
      by_cases hb : n = "block"
      · subst hb
        simp only [build_groups, if_pos rfl, Bind.bind] at h
        cases hsb : StatementBody.new (some (XNode.element "block" a ch)) with
        | error e => rw [hsb] at h; cases h
        | ok g0 =>
          rw [hsb] at h
          simp only [Except.bind] at h
          cases hbg : build_groups rest with
          | error e => rw [hbg] at h; cases h
          | ok gtl =>
            rw [hbg] at h
            simp only [Except.bind] at h
            injection h with h
            subst h
            intro g hg
            rcases List.mem_cons.mp hg with hg | hg
            · subst hg
              exact StatementBody.chain_blocks_ne_nil _ _
                ((StatementBody.new_some _) ▸ hsb)
            · exact ih _ hbg g hg
      · simp only [build_groups, if_neg hb] at h
        exact ih _ h
    | text s =>
      simp only [build_groups] at h
      exact ih _ h
    | comment s =>
      simp only [build_groups] at h
      exact ih _ h

/-- Modelled from the spec (§4.4): the scan "looking for the first child that
is either a text node or an element node", skipping any other node kind
(comments, processing instructions).  This follows the spec's words, not the
source, and exists to compare the spec's claimed field-value behaviour with
the implementation's `FieldValue.new`. -/
def firstTextOrElement : List XNode → Option XNode
  | [] => none
  | c :: rest =>
    match c with
    | .text s => some (.text s)
    | .element n a ch => some (.element n a ch)
    | .comment _ => firstTextOrElement rest

/-- The dispatch test of the `program_from_xml` loop: a child element whose
local name is `block`. -/
def is_block_element : XNode → Bool
  | .element n _ _ => n == "block"
  | _ => false

/-! A first-failure scan of the document, for the error-propagation claim.
The functions below follow the spec's words, not the implementation: they
re-state the traversal of the design (root children in document order, each
block's child elements in document order with statement bodies entered at
their position, and the chain successor of a block visited after that
block's own children, as the chain-resolution step prescribes) and return
the first failure that traversal encounters, without building anything.
They are compared with the builders by the refinement theorems that follow. -/

/-- Modelled from the spec (the field-value check, with its first-child
reading as corrected under C5): the fault of one field element — `EmptyField`
when it has no children, `UnimplementedExpressionField` when its first child
is not a text node, no fault otherwise. -/
def field_fault (field_el : XNode) : Option BuildError :=
  match field_el.children with
  | [] => some BuildError.EmptyField
  | child :: _ =>
    match child with
    | .text _ => none
    | _ => some BuildError.UnimplementedExpressionField

/- Modelled from the spec: the first failure encountered below one block
element (`block_fault` / `block_children_fault`, scanning the block's child
elements in document order), below an optional statement-slot start
(`slot_fault`), and along a chain (`chain_fault`: the current block's faults
first, then the successor's). -/
mutual
def block_fault (block_el : XNode) : Option BuildError :=
  block_children_fault block_el.children
termination_by 3 * block_el.size + 1
decreasing_by
  have := XNode.sizeList_children_lt block_el
  omega

def block_children_fault : List XNode → Option BuildError
  | [] => none
  | child :: rest =>
    match child with
    | .element cn ca cc =>
      if cn = "statement" then
        match get_attribute (.element cn ca cc) "name" with
        | none => some (BuildError.MissingAttribute cn "name")
        | some _ =>
          match slot_fault (get_first_child_element (.element cn ca cc)) with
          | some e => some e
          | none => block_children_fault rest
      else if cn = "field" then
        match get_attribute (.element cn ca cc) "name" with
        | none => some (BuildError.MissingAttribute cn "name")
        | some _ =>
          match field_fault (.element cn ca cc) with
          | some e => some e
          | none => block_children_fault rest
      else block_children_fault rest
    | _ => block_children_fault rest
termination_by cs => 3 * XNode.sizeList cs + 1
decreasing_by
  all_goals
    first
    | exact XNode.dec_statement_body _ _ _ _
    | exact XNode.dec_rest _ _

def slot_fault : Option XNode → Option BuildError
  | none => none
  | some el => chain_fault el
termination_by o => 3 * XNode.sizeOpt o + 3
decreasing_by
  simp only [XNode.sizeOpt]
  omega

def chain_fault (el : XNode) : Option BuildError :=
  match block_fault el with
  | some e => some e
  | none =>
    match h : get_next_block_element el with
    | none => none
    | some nb => chain_fault nb
termination_by 3 * el.size + 2
decreasing_by
  · omega
  · have := XNode.size_lt_of_get_next h
    omega
end

/-- Modelled from the spec: the first failure among the root container's
children, visited in document order; only children named `block` are entered. -/
def groups_fault : List XNode → Option BuildError
  | [] => none
  | child :: rest =>
    match child with
    | .element n a ch =>
      if n = "block" then
        match chain_fault (XNode.element n a ch) with
        | some e => some e
        | none => groups_fault rest
      else groups_fault rest
    | _ => groups_fault rest

/-- Modelled from the spec: the first failure the whole assembly traversal
encounters — a parse failure, a missing root container, or the first failure
below the root's block children in document order; `none` when the document
is fault-free. -/
def first_failure (parse_result : Option (List XNode)) : Option BuildError :=
  match parse_result with
  | none => some BuildError.DocumentSyntaxError
  | some root_children =>
    match get_xml_element root_children with
    | none => some BuildError.MissingRootElement
    | some xml_el => groups_fault xml_el.children

theorem block_fault_eq (block_el : XNode) :
    block_fault block_el = block_children_fault block_el.children := by
  rw [block_fault]

theorem slot_fault_none : slot_fault none = none := by
  simp [slot_fault]

theorem slot_fault_some (el : XNode) : slot_fault (some el) = chain_fault el := by
  simp [slot_fault]

theorem chain_fault_eq (el : XNode) :
    chain_fault el =
      match block_fault el with
      | some e => some e
      | none =>
        match get_next_block_element el with
        | none => none
        | some nb => chain_fault nb := by
  rw [chain_fault]
  cases hb : block_fault el with
  | some e => rfl
  | none =>
    cases hn : get_next_block_element el with
    | none => rfl
    | some nb => rfl

theorem field_refine (f : XNode) :
    (field_fault f = none → ∃ v, FieldValue.new f = Except.ok v) ∧
    (∀ e, field_fault f = some e → FieldValue.new f = Except.error e) := by
  cases hc : f.children with
  | nil =>
    have h1 : field_fault f = some BuildError.EmptyField := by
      simp [field_fault, hc]
    have h2 : FieldValue.new f = Except.error BuildError.EmptyField := by
      simp [FieldValue.new, hc]
    constructor
    · intro h
      rw [h1] at h
      cases h
    · intro e he
      rw [h1] at he
      injection he with he
      subst he
      exact h2
  | cons c rest =>
    cases c with
    | text str =>
      have h1 : field_fault f = none := by simp [field_fault, hc]
      have h2 : FieldValue.new f = Except.ok (FieldValue.SimpleField str) := by
        simp [FieldValue.new, hc]
      constructor
      · intro _
        exact ⟨_, h2⟩
      · intro e he
        rw [h1] at he
        cases he
    | element n a ch =>
      have h1 : field_fault f = some BuildError.UnimplementedExpressionField := by
        simp [field_fault, hc]
      have h2 : FieldValue.new f = Except.error BuildError.UnimplementedExpressionField := by
        simp [FieldValue.new, hc]
      constructor
      · intro h
        rw [h1] at h
        cases h
      · intro e he
        rw [h1] at he
        injection he with he
        subst he
        exact h2
    | comment str =>
      have h1 : field_fault f = some BuildError.UnimplementedExpressionField := by
        simp [field_fault, hc]
      have h2 : FieldValue.new f = Except.error BuildError.UnimplementedExpressionField := by
        simp [FieldValue.new, hc]
      constructor
      · intro h
        rw [h1] at h
        cases h
      · intro e he
        rw [h1] at he
        injection he with he
        subst he
        exact h2

/-! The builders fail exactly when the scan finds a fault, and with exactly
the first fault it encounters. -/

mutual
theorem block_refine (el : XNode) :
    (block_fault el = none → ∃ b, Block.new el = Except.ok b) ∧
    (∀ e, block_fault el = some e → Block.new el = Except.error e) := by
  rw [Block.new_eq, block_fault_eq]
  exact children_refine el.children (apply_attributes el.attrs (Block.mk "" "" [] []))
termination_by 3 * el.size + 1
decreasing_by
  have := XNode.sizeList_children_lt el
  omega

theorem children_refine (cs : List XNode) (b : Block) :
    (block_children_fault cs = none →
      ∃ b', Block.processChildren cs b = Except.ok b') ∧
    (∀ e, block_children_fault cs = some e →
      Block.processChildren cs b = Except.error e) := by
  cases cs with
  | nil =>
    constructor
    · intro _
      exact ⟨b, by simp [Block.processChildren]⟩
    · intro e he
      simp [block_children_fault] at he
  | cons child rest =>
    cases child with
    | element cn ca cc =>
      by_cases hs : cn = "statement"
      · subst hs
        cases hga : get_attribute (XNode.element "statement" ca cc) "name" with
        | none =>
          have h1 : block_children_fault (XNode.element "statement" ca cc :: rest) =
              some (BuildError.MissingAttribute "statement" "name") := by
            simp [block_children_fault, hga]
          have h2 : Block.processChildren (XNode.element "statement" ca cc :: rest) b =
              Except.error (BuildError.MissingAttribute "statement" "name") := by
            simp [Block.processChildren, hga]
          constructor
          · intro hf
            rw [h1] at hf
            cases hf
          · intro e he
            rw [h1] at he
            injection he with he
            subst he
            exact h2
        | some sn =>
          have hslot := slot_refine
            (get_first_child_element (XNode.element "statement" ca cc))
          cases hsf : slot_fault
              (get_first_child_element (XNode.element "statement" ca cc)) with
          | some e0 =>
            have hnew := hslot.2 e0 hsf
            have h1 : block_children_fault (XNode.element "statement" ca cc :: rest) =
                some e0 := by
              simp [block_children_fault, hga, hsf]
            have h2 : Block.processChildren (XNode.element "statement" ca cc :: rest) b =
                Except.error e0 := by
              simp [Block.processChildren, hga, hnew, Bind.bind, Except.bind]
            constructor
            · intro hf
              rw [h1] at hf
              cases hf
            · intro e he
              rw [h1] at he
              injection he with he
              subst he
              exact h2
          | none =>
            obtain ⟨sb, hnew⟩ := hslot.1 hsf
            have h1 : block_children_fault (XNode.element "statement" ca cc :: rest) =
                block_children_fault rest := by
              simp [block_children_fault, hga, hsf]
            have h2 : Block.processChildren (XNode.element "statement" ca cc :: rest) b =
                Block.processChildren rest (Block.mk b.block_type b.id b.fields
                  (mapInsert b.statements sn sb)) := by
              simp [Block.processChildren, hga, hnew, Bind.bind, Except.bind]
            rw [h1, h2]
            exact children_refine rest (Block.mk b.block_type b.id b.fields
              (mapInsert b.statements sn sb))
      · by_cases hf : cn = "field"
        · subst hf
          cases hga : get_attribute (XNode.element "field" ca cc) "name" with
          | none =>
            have h1 : block_children_fault (XNode.element "field" ca cc :: rest) =
                some (BuildError.MissingAttribute "field" "name") := by
              simp [block_children_fault, hga]
            have h2 : Block.processChildren (XNode.element "field" ca cc :: rest) b =
                Except.error (BuildError.MissingAttribute "field" "name") := by
              simp [Block.processChildren, hga]
            constructor
            · intro hfa
              rw [h1] at hfa
              cases hfa
            · intro e he
              rw [h1] at he
              injection he with he
              subst he
              exact h2
          | some fn =>
            have hleaf := field_refine (XNode.element "field" ca cc)
            cases hff : field_fault (XNode.element "field" ca cc) with
            | some e0 =>
              have hnew := hleaf.2 e0 hff
              have h1 : block_children_fault (XNode.element "field" ca cc :: rest) =
                  some e0 := by
                simp [block_children_fault, hga, hff]
              have h2 : Block.processChildren (XNode.element "field" ca cc :: rest) b =
                  Except.error e0 := by
                simp [Block.processChildren, hga, hnew, Bind.bind, Except.bind]
              constructor
              · intro hfa
                rw [h1] at hfa
                cases hfa
              · intro e he
                rw [h1] at he
                injection he with he
                subst he
                exact h2
            | none =>
              obtain ⟨v, hnew⟩ := hleaf.1 hff
              have h1 : block_children_fault (XNode.element "field" ca cc :: rest) =
                  block_children_fault rest := by
                simp [block_children_fault, hga, hff]
              have h2 : Block.processChildren (XNode.element "field" ca cc :: rest) b =
                  Block.processChildren rest (Block.mk b.block_type b.id
                    (mapInsert b.fields fn v) b.statements) := by
                simp [Block.processChildren, hga, hnew, Bind.bind, Except.bind]
              rw [h1, h2]
              exact children_refine rest (Block.mk b.block_type b.id
                (mapInsert b.fields fn v) b.statements)
        · have h1 : block_children_fault (XNode.element cn ca cc :: rest) =
              block_children_fault rest := by
            simp [block_children_fault, hs, hf]
          have h2 : Block.processChildren (XNode.element cn ca cc :: rest) b =
              Block.processChildren rest b := by
            simp [Block.processChildren, hs, hf]
          rw [h1, h2]
          exact children_refine rest b
    | text str =>
      have h1 : block_children_fault (XNode.text str :: rest) =
          block_children_fault rest := by
        simp [block_children_fault]
      have h2 : Block.processChildren (XNode.text str :: rest) b =
          Block.processChildren rest b := by
        simp [Block.processChildren]
      rw [h1, h2]
      exact children_refine rest b
    | comment str =>
      have h1 : block_children_fault (XNode.comment str :: rest) =
          block_children_fault rest := by
        simp [block_children_fault]
      have h2 : Block.processChildren (XNode.comment str :: rest) b =
          Block.processChildren rest b := by
        simp [Block.processChildren]
      rw [h1, h2]
      exact children_refine rest b
termination_by 3 * XNode.sizeList cs + 1
decreasing_by
  all_goals
    first
    | exact XNode.dec_statement_body _ _ _ _
    | exact XNode.dec_rest _ _

theorem slot_refine (o : Option XNode) :
    (slot_fault o = none → ∃ sb, StatementBody.new o = Except.ok sb) ∧
    (∀ e, slot_fault o = some e → StatementBody.new o = Except.error e) := by
  cases o with
  | none =>
    constructor
    · intro _
      exact ⟨_, StatementBody.new_none⟩
    · intro e he
      rw [slot_fault_none] at he
      cases he
  | some el =>
    rw [slot_fault_some, StatementBody.new_some]
    exact chain_refine el
termination_by 3 * XNode.sizeOpt o + 3
decreasing_by
  simp only [XNode.sizeOpt]
  omega

theorem chain_refine (el : XNode) :
    (chain_fault el = none → ∃ sb, StatementBody.chain el = Except.ok sb) ∧
    (∀ e, chain_fault el = some e → StatementBody.chain el = Except.error e) := by
  have hbr := block_refine el
  cases hb : block_fault el with
  | some e0 =>
    have hnew := hbr.2 e0 hb
    have h1 : chain_fault el = some e0 := by
      rw [chain_fault_eq, hb]
    have h2 : StatementBody.chain el = Except.error e0 := by
      rw [StatementBody.chain_eq, hnew]
      simp [Except.bind]
    constructor
    · intro h
      rw [h1] at h
      cases h
    · intro e he
      rw [h1] at he
      injection he with he
      subst he
      exact h2
  | none =>
    obtain ⟨b, hnew⟩ := hbr.1 hb
    cases hn : get_next_block_element el with
    | none =>
      have h1 : chain_fault el = none := by
        rw [chain_fault_eq, hb, hn]
      have h2 : StatementBody.chain el = Except.ok (StatementBody.mk [b]) := by
        rw [StatementBody.chain_eq_none el hn, hnew]
        simp [Except.bind]
      constructor
      · intro _
        exact ⟨_, h2⟩
      · intro e he
        rw [h1] at he
        cases he
    | some nb =>
      have hrec := chain_refine nb
      have h1 : chain_fault el = chain_fault nb := by
        rw [chain_fault_eq, hb, hn]
      cases hcf : chain_fault nb with
      | some e0 =>
        have hcnb := hrec.2 e0 hcf
        have h2 : StatementBody.chain el = Except.error e0 := by
          rw [StatementBody.chain_eq_some el nb hn, hnew]
          simp [Except.bind, hcnb]
        constructor
        · intro h
          rw [h1, hcf] at h
          cases h
        · intro e he
          rw [h1, hcf] at he
          injection he with he
          subst he
          exact h2
      | none =>
        obtain ⟨sb, hcnb⟩ := hrec.1 hcf
        have h2 : StatementBody.chain el =
            Except.ok (StatementBody.mk (b :: sb.blocks)) := by
          rw [StatementBody.chain_eq_some el nb hn, hnew]
          simp [Except.bind, hcnb]
        constructor
        · intro _
          exact ⟨_, h2⟩
        · intro e he
          rw [h1, hcf] at he
          cases he
termination_by 3 * el.size + 2
decreasing_by
  · omega
  · have := XNode.size_lt_of_get_next hn
    omega
end

theorem groups_refine (cs : List XNode) :
    (groups_fault cs = none → ∃ gs, build_groups cs = Except.ok gs) ∧
    (∀ e, groups_fault cs = some e → build_groups cs = Except.error e) := by
  induction cs with
  | nil =>
    constructor
    · intro _
      exact ⟨[], by simp [build_groups]⟩
    · intro e he
      simp [groups_fault] at he
  | cons child rest ih =>
    cases child with
    | element n a ch =>
      by_cases hb : n = "block"
      · subst hb
        have hcr := chain_refine (XNode.element "block" a ch)
        cases hcf : chain_fault (XNode.element "block" a ch) with
        | some e0 =>
          have hchain := hcr.2 e0 hcf
          have h1 : groups_fault (XNode.element "block" a ch :: rest) = some e0 := by
            simp [groups_fault, hcf]
          have h2 : build_groups (XNode.element "block" a ch :: rest) =
              Except.error e0 := by
            simp [build_groups, StatementBody.new_some, hchain, Bind.bind, Except.bind]
          constructor
          · intro h
            rw [h1] at h
            cases h
          · intro e he
            rw [h1] at he
            injection he with he
            subst he
            exact h2
        | none =>
          obtain ⟨sb, hchain⟩ := hcr.1 hcf
          have h1 : groups_fault (XNode.element "block" a ch :: rest) =
              groups_fault rest := by
            simp [groups_fault, hcf]
          cases hgf : groups_fault rest with
          | some e0 =>
            have hbgr := ih.2 e0 hgf
            have h2 : build_groups (XNode.element "block" a ch :: rest) =
                Except.error e0 := by
              simp [build_groups, StatementBody.new_some, hchain, hbgr,
                Bind.bind, Except.bind]
            constructor
            · intro h
              rw [h1, hgf] at h
              cases h
            · intro e he
              rw [h1, hgf] at he
              injection he with he
              subst he
              exact h2
          | none =>
            obtain ⟨gs, hbgr⟩ := ih.1 hgf
            have h2 : build_groups (XNode.element "block" a ch :: rest) =
                Except.ok (sb :: gs) := by
              simp [build_groups, StatementBody.new_some, hchain, hbgr,
                Bind.bind, Except.bind]
            constructor
            · intro _
              exact ⟨_, h2⟩
            · intro e he
              rw [h1, hgf] at he
              cases he
      · have h1 : groups_fault (XNode.element n a ch :: rest) =
            groups_fault rest := by
          simp [groups_fault, hb]
        have h2 : build_groups (XNode.element n a ch :: rest) =
            build_groups rest := by
          simp [build_groups, hb]
        rw [h1, h2]
        exact ih
    | text str =>
      have h1 : groups_fault (XNode.text str :: rest) = groups_fault rest := by
        simp [groups_fault]
      have h2 : build_groups (XNode.text str :: rest) = build_groups rest := by
        simp [build_groups]
      rw [h1, h2]
      exact ih
    | comment str =>
      have h1 : groups_fault (XNode.comment str :: rest) = groups_fault rest := by
        simp [groups_fault]
      have h2 : build_groups (XNode.comment str :: rest) = build_groups rest := by
        simp [build_groups]
      rw [h1, h2]
      exact ih

/-! The claims. -/

/-- C1: a block element `e1` whose (first) `next` child wraps a block `e2`,
whose `next` in turn wraps a block `e3` that has no further `next`, resolves
to a `StatementBody` whose block sequence is exactly the blocks built from
`e1`, `e2`, `e3`, in chain-traversal order; and a block element with no
`next` child resolves to a single-element sequence. -/
theorem claim_C1 :
    (∀ e1 e2 e3 : XNode, ∀ b1 b2 b3 : Block,
      get_next_block_element e1 = some e2 →
      get_next_block_element e2 = some e3 →
      get_next_block_element e3 = none →
      Block.new e1 = Except.ok b1 →
      Block.new e2 = Except.ok b2 →
      Block.new e3 = Except.ok b3 →
      StatementBody.new (some e1) = Except.ok (StatementBody.mk [b1, b2, b3]))
    ∧ (∀ e : XNode, ∀ b : Block,
      find_element_named "next" e.children = none →
      Block.new e = Except.ok b →
      StatementBody.new (some e) = Except.ok (StatementBody.mk [b])) := by
  constructor
  · intro e1 e2 e3 b1 b2 b3 h12 h23 h3 hb1 hb2 hb3
    rw [StatementBody.new_some, StatementBody.chain_eq_some e1 e2 h12, hb1]
    simp only [Except.bind]
    rw [StatementBody.chain_eq_some e2 e3 h23, hb2]
    simp only [Except.bind]
    rw [StatementBody.chain_eq_none e3 h3, hb3]
    simp only [Except.bind]
    simp [StatementBody.blocks_mk]
  · intro e b hn hb
    have hnone : get_next_block_element e = none := by
      unfold get_next_block_element
      rw [hn]
    rw [StatementBody.new_some, StatementBody.chain_eq_none e hnone, hb]
    simp only [Except.bind]

/-- Witness for C1 on a concrete three-block chain. -/
theorem claim_C1_witness :
    StatementBody.new (some (XNode.element "block" [("type", "a")]
      [XNode.element "next" [] [XNode.element "block" [("type", "b")]
        [XNode.element "next" [] [XNode.element "block" [("type", "c")] []]]]])) =
    Except.ok (StatementBody.mk
      [Block.mk "a" "" [] [], Block.mk "b" "" [] [], Block.mk "c" "" [] []]) :=
  claim_C1.1
    (XNode.element "block" [("type", "a")]
      [XNode.element "next" [] [XNode.element "block" [("type", "b")]
        [XNode.element "next" [] [XNode.element "block" [("type", "c")] []]]]])
    (XNode.element "block" [("type", "b")]
      [XNode.element "next" [] [XNode.element "block" [("type", "c")] []]])
    (XNode.element "block" [("type", "c")] [])
    (Block.mk "a" "" [] []) (Block.mk "b" "" [] []) (Block.mk "c" "" [] [])
    rfl rfl rfl
    (by simp [Block.new, Block.processChildren, apply_attributes, XNode.attrs,
      XNode.children, Block.block_type, Block.id, Block.fields, Block.statements])
    (by simp [Block.new, Block.processChildren, apply_attributes, XNode.attrs,
      XNode.children, Block.block_type, Block.id, Block.fields, Block.statements])
    (by simp [Block.new, Block.processChildren, apply_attributes, XNode.attrs,
      XNode.children, Block.block_type, Block.id, Block.fields, Block.statements])

/-- C2: a document whose root container holds exactly one block element with
attributes `type=X`, `id=Y` and one field child named `F` containing text `v`
transforms into a Program with exactly one group containing exactly one block
with `block_type = X`, `id = Y` and `fields` sending `F` to `SimpleField v`. -/
theorem claim_C2 (X Y F v : String) :
    program_from_xml (some [XNode.element "xml" []
      [XNode.element "block" [("type", X), ("id", Y)]
        [XNode.element "field" [("name", F)] [XNode.text v]]]]) =
    Except.ok (Program.mk [StatementBody.mk
      [Block.mk X Y [(F, FieldValue.SimpleField v)] []]]) := by
  simp [program_from_xml, get_xml_element, find_element_named, build_groups,
    StatementBody.new, StatementBody.chain, Block.new, Block.processChildren,
    apply_attributes, XNode.attrs, XNode.children, get_attribute, goAttrs,
    get_first_child_element, first_element, FieldValue.new, mapInsert,
    get_next_block_element, Block.block_type, Block.id, Block.fields,
    Block.statements, StatementBody.blocks, Bind.bind, Except.bind]

/-- C3: for every parse outcome, the single entry point returns either a
complete, fully-built `Program` — exactly when the spec's traversal of the
document encounters no failure — or exactly one typed error from the
taxonomy, namely the first failure that traversal encounters
(`first_failure`, which visits the root's children, and every block's child
elements, in document order); there is no partial result.  Rust panics abort
the whole call and are modelled as the error outcome. -/
theorem claim_C3 (parse_result : Option (List XNode)) :
    (first_failure parse_result = none ∧
      ∃ p, program_from_xml parse_result = Except.ok p) ∨
    (∃ e, first_failure parse_result = some e ∧
      program_from_xml parse_result = Except.error e) := by
  cases parse_result with
  | none =>
    right
    refine ⟨BuildError.DocumentSyntaxError, ?_, ?_⟩
    · simp [first_failure]
    · simp [program_from_xml]
  | some root_children =>
    cases hx : get_xml_element root_children with
    | none =>
      right
      refine ⟨BuildError.MissingRootElement, ?_, ?_⟩
      · simp [first_failure, hx]
      · simp [program_from_xml, hx]
    | some xml_el =>
      have hgr := groups_refine xml_el.children
      cases hgf : groups_fault xml_el.children with
      | some e0 =>
        right
        refine ⟨e0, ?_, ?_⟩
        · simp [first_failure, hx, hgf]
        · have herr := hgr.2 e0 hgf
          simp [program_from_xml, hx, herr, Bind.bind, Except.bind]
      | none =>
        left
        obtain ⟨gs, hbg⟩ := hgr.1 hgf
        constructor
        · simp [first_failure, hx, hgf]
        · exact ⟨Program.mk gs,
            by simp [program_from_xml, hx, hbg, Bind.bind, Except.bind]⟩

/-- C4: if the first text-or-element child of a field element is an element
node (no text node before it), field-value parsing fails with
`UnimplementedExpressionField` rather than returning a value. -/
theorem claim_C4 (nm : String) (attrs : List (String × String)) (cs : List XNode)
    (n : String) (a : List (String × String)) (ch : List XNode)
    (h : firstTextOrElement cs = some (XNode.element n a ch)) :
    FieldValue.new (XNode.element nm attrs cs) =
      Except.error BuildError.UnimplementedExpressionField := by
  cases cs with
  | nil => simp [firstTextOrElement] at h
  | cons c rest =>
    cases c with
    | element n2 a2 ch2 => simp [FieldValue.new, XNode.children]
    | text s => simp [firstTextOrElement] at h
    | comment s => simp [FieldValue.new, XNode.children]

/-- Witness for C4 on a field whose only child is an element. -/
theorem claim_C4_witness :
    FieldValue.new (XNode.element "field" [("name", "F")]
      [XNode.element "block" [] []]) =
    Except.error BuildError.UnimplementedExpressionField :=
  claim_C4 "field" [("name", "F")] [XNode.element "block" [] []] "block" [] [] rfl

/-- C5 (counterexample): a field element whose first text-or-element child is
the text node `on`, but which carries a comment before it, makes
`FieldValue.new` fail with `UnimplementedExpressionField` instead of
returning `SimpleField "on"` as the claim states. -/
theorem claim_C5_counterexample :
    firstTextOrElement [XNode.comment "note", XNode.text "on"] =
        some (XNode.text "on")
    ∧ FieldValue.new (XNode.element "field" [("name", "F")]
        [XNode.comment "note", XNode.text "on"]) =
        Except.error BuildError.UnimplementedExpressionField
    ∧ FieldValue.new (XNode.element "field" [("name", "F")]
        [XNode.comment "note", XNode.text "on"]) ≠
        Except.ok (FieldValue.SimpleField "on") :=
  ⟨rfl, rfl, fun hcontra => nomatch hcontra⟩

/-- C5 (amended): for every field element whose *first child* is a text node,
field-value parsing returns `SimpleField` with that text node's content and
all subsequent children are ignored; a field element with no children at all
fails with `EmptyField`. -/
theorem claim_C5 :
    (∀ nm : String, ∀ attrs : List (String × String), ∀ v : String,
      ∀ rest : List XNode,
      FieldValue.new (XNode.element nm attrs (XNode.text v :: rest)) =
        Except.ok (FieldValue.SimpleField v))
    ∧ (∀ nm : String, ∀ attrs : List (String × String),
      FieldValue.new (XNode.element nm attrs []) =
        Except.error BuildError.EmptyField) := by
  constructor
  · intro nm attrs v rest
    rfl
  · intro nm attrs
    rfl

/-- C6: a `statement` or `field` child element lacking a `name` attribute
makes block building fail with `MissingAttribute` identifying that child and
the missing attribute, provided processing reaches that child (the children
before it process successfully — the first failure in document order wins). -/
theorem claim_C6 (nm : String) (attrs : List (String × String))
    (cs1 cs2 : List XNode) (cn : String) (ca : List (String × String))
    (cc : List XNode) (bmid : Block)
    (hkind : cn = "statement" ∨ cn = "field")
    (hattr : get_attribute (XNode.element cn ca cc) "name" = none)
    (hpre : Block.processChildren cs1
      (apply_attributes attrs (Block.mk "" "" [] [])) = Except.ok bmid) :
    Block.new (XNode.element nm attrs (cs1 ++ XNode.element cn ca cc :: cs2)) =
      Except.error (BuildError.MissingAttribute cn "name") := by
  rw [Block.new_eq]
  simp only [XNode.children, XNode.attrs]
  rw [Block.processChildren_append, hpre]
  simp only [Except.bind]
  rcases hkind with hk | hk
  · subst hk
    simp [Block.processChildren, hattr]
  · subst hk
    simp [Block.processChildren, hattr]

/-- Witness for C6: a statement child with no attributes at all. -/
theorem claim_C6_witness :
    Block.new (XNode.element "block" [] [XNode.element "statement" [] []]) =
      Except.error (BuildError.MissingAttribute "statement" "name") :=
  claim_C6 "block" [] [] [] "statement" [] [] (Block.mk "" "" [] [])
    (Or.inl rfl) rfl (by simp [Block.processChildren, apply_attributes])

/-- C7: within one block, a later `field` (resp. `statement`) child with the
same name as earlier ones determines the value held in the resulting mapping:
the built block's `fields` (resp. `statements`) sends the duplicated name to
the value produced from the last such child in document order, the earlier
entries having been silently overwritten without an error. -/
theorem claim_C7 :
    (∀ nm : String, ∀ attrs ca : List (String × String),
      ∀ cs1 cs2 cc : List XNode, ∀ F : String, ∀ v : FieldValue, ∀ b : Block,
      get_attribute (XNode.element "field" ca cc) "name" = some F →
      FieldValue.new (XNode.element "field" ca cc) = Except.ok v →
      (∀ n2 a2 ch2, XNode.element n2 a2 ch2 ∈ cs2 → n2 = "field" →
        get_attribute (XNode.element n2 a2 ch2) "name" ≠ some F) →
      Block.new (XNode.element nm attrs
        (cs1 ++ XNode.element "field" ca cc :: cs2)) = Except.ok b →
      b.fields.lookup F = some v)
    ∧ (∀ nm : String, ∀ attrs ca : List (String × String),
      ∀ cs1 cs2 cc : List XNode, ∀ S : String, ∀ body : StatementBody, ∀ b : Block,
      get_attribute (XNode.element "statement" ca cc) "name" = some S →
      StatementBody.new (get_first_child_element (XNode.element "statement" ca cc)) =
        Except.ok body →
      (∀ n2 a2 ch2, XNode.element n2 a2 ch2 ∈ cs2 → n2 = "statement" →
        get_attribute (XNode.element n2 a2 ch2) "name" ≠ some S) →
      Block.new (XNode.element nm attrs
        (cs1 ++ XNode.element "statement" ca cc :: cs2)) = Except.ok b →
      b.statements.lookup S = some body) := by
  constructor
  · intro nm attrs ca cs1 cs2 cc F v b hname hval hno hok
    rw [Block.new_eq] at hok
    simp only [XNode.children, XNode.attrs] at hok
    rw [Block.processChildren_append] at hok
    cases hpre : Block.processChildren cs1
        (apply_attributes attrs (Block.mk "" "" [] [])) with
    | error e =>
      rw [hpre] at hok
      simp only [Except.bind] at hok
      cases hok
    | ok bmid =>
      rw [hpre] at hok
      simp only [Except.bind] at hok
      simp only [Block.processChildren] at hok
      rw [hname, hval] at hok
      simp at hok
      have hpres := Block.processChildren_fields_lookup cs2 _ b F hok hno
      simp only [Block.fields_mk] at hpres
      rw [hpres, mapInsert_lookup_self]
  · intro nm attrs ca cs1 cs2 cc S body b hname hbody hno hok
    rw [Block.new_eq] at hok
    simp only [XNode.children, XNode.attrs] at hok
    rw [Block.processChildren_append] at hok
    cases hpre : Block.processChildren cs1
        (apply_attributes attrs (Block.mk "" "" [] [])) with
    | error e =>
      rw [hpre] at hok
      simp only [Except.bind] at hok
      cases hok
    | ok bmid =>
      rw [hpre] at hok
      simp only [Except.bind] at hok
      simp only [Block.processChildren] at hok
      rw [hname, hbody] at hok
      simp at hok
      have hpres := Block.processChildren_statements_lookup cs2 _ b S hok hno
      simp only [Block.statements_mk] at hpres
      rw [hpres, mapInsert_lookup_self]

/-- Witness for C7: two field children both named `K`; the mapping holds the
second value. -/
theorem claim_C7_witness :
    (Block.mk "" "" [("K", FieldValue.SimpleField "2")] []).fields.lookup "K" =
      some (FieldValue.SimpleField "2") :=
  claim_C7.1 "block" [] [("name", "K")]
    [XNode.element "field" [("name", "K")] [XNode.text "1"]] []
    [XNode.text "2"] "K" (FieldValue.SimpleField "2")
    (Block.mk "" "" [("K", FieldValue.SimpleField "2")] [])
    rfl rfl (by simp)
    (by simp [Block.new, Block.processChildren, apply_attributes, XNode.attrs,
      XNode.children, get_attribute, goAttrs, FieldValue.new, mapInsert,
      Bind.bind, Except.bind, Block.block_type, Block.id, Block.fields,
      Block.statements])

/-- C8: assembly builds exactly one group per direct child element of the
root container named `block`, in document order; every other child (for
example a `variables` element) contributes no group and raises no error. -/
theorem claim_C8 :
    (∀ cs : List XNode, build_groups cs =
      (cs.filter is_block_element).mapM (fun c => StatementBody.new (some c)))
    ∧ build_groups [XNode.element "variables" [] []] = Except.ok [] := by
  have hmain : ∀ cs : List XNode, build_groups cs =
      (cs.filter is_block_element).mapM (fun c => StatementBody.new (some c)) := by
    intro cs
    induction cs with
    | nil => simp [build_groups, List.mapM, List.mapM.loop, pure, Except.pure]
    | cons c rest ih =>
      cases c with
      | element n a ch =>
        by_cases hb : n = "block"
        · subst hb
          have hfil : List.filter is_block_element
              (XNode.element "block" a ch :: rest) =
              XNode.element "block" a ch :: List.filter is_block_element rest := by
            simp [List.filter, is_block_element]
          rw [hfil, List.mapM_cons]
          simp only [build_groups, if_pos rfl]
          rw [ih]
          rfl
        · have hbeq : (n == "block") = false := by simp [hb]
          have hfil : List.filter is_block_element
              (XNode.element n a ch :: rest) =
              List.filter is_block_element rest := by
            simp [List.filter, is_block_element, hbeq]
          rw [hfil]
          simp only [build_groups, if_neg hb]
          exact ih
      | text str =>
        have hfil : List.filter is_block_element (XNode.text str :: rest) =
            List.filter is_block_element rest := by
          simp [List.filter, is_block_element]
        rw [hfil]
        simp only [build_groups]
        exact ih
      | comment str =>
        have hfil : List.filter is_block_element (XNode.comment str :: rest) =
            List.filter is_block_element rest := by
          simp [List.filter, is_block_element]
        rw [hfil]
        simp only [build_groups]
        exact ih
  refine ⟨hmain, ?_⟩
  rw [hmain]
  simp [List.filter, is_block_element, List.mapM, List.mapM.loop, pure, Except.pure]

/-- C9: a built block's `block_type` and `id` are the values of the element's
`type` and `id` attributes, each defaulting to the empty string when absent;
other attributes are ignored and the attribute scan never raises an error
(in particular a childless block element always builds successfully, whatever
its attributes). -/
theorem claim_C9 :
    (∀ nm : String, ∀ attrs : List (String × String), ∀ children : List XNode,
      ∀ b : Block,
      (attrs.map Prod.fst).Nodup →
      Block.new (XNode.element nm attrs children) = Except.ok b →
      b.block_type =
        (get_attribute (XNode.element nm attrs children) "type").getD "" ∧
      b.id = (get_attribute (XNode.element nm attrs children) "id").getD "")
    ∧ (∀ nm : String, ∀ attrs : List (String × String),
      Block.new (XNode.element nm attrs []) =
        Except.ok (apply_attributes attrs (Block.mk "" "" [] []))) := by
  constructor
  · intro nm attrs children b hnd hok
    rw [Block.new_eq] at hok
    simp only [XNode.children, XNode.attrs] at hok
    have hti := Block.processChildren_type_id _ _ _ hok
    have ht := apply_attributes_block_type attrs (Block.mk "" "" [] []) hnd
    have hi := apply_attributes_id attrs (Block.mk "" "" [] []) hnd
    constructor
    · rw [hti.1, ht]
      unfold get_attribute
      simp only [XNode.attrs]
      cases goAttrs attrs "type" <;> simp [Block.block_type_mk]
    · rw [hti.2, hi]
      unfold get_attribute
      simp only [XNode.attrs]
      cases goAttrs attrs "id" <;> simp [Block.id_mk]
  · intro nm attrs
    rw [Block.new_eq]
    simp [XNode.children, XNode.attrs, Block.processChildren]

/-- Witness for C9 on a block with both attributes present plus an ignored
editor attribute, and on one with no attributes. -/
theorem claim_C9_witness :
    (Block.mk "X" "Y" [] []).block_type =
      (get_attribute (XNode.element "block"
        [("type", "X"), ("id", "Y"), ("x", "50")] []) "type").getD "" ∧
    (Block.mk "X" "Y" [] []).id =
      (get_attribute (XNode.element "block"
        [("type", "X"), ("id", "Y"), ("x", "50")] []) "id").getD "" :=
  claim_C9.1 "block" [("type", "X"), ("id", "Y"), ("x", "50")] []
    (Block.mk "X" "Y" [] []) (by decide)
    (by simp [Block.new, Block.processChildren, apply_attributes, XNode.attrs,
      XNode.children, Block.block_type, Block.id, Block.fields, Block.statements])

/-- C10: every group of a successfully returned Program is nonempty — chain
resolution started from a present block element always pushes that block
before looking for a successor. -/
theorem claim_C10 (parse_result : Option (List XNode)) (p : Program)
    (hok : program_from_xml parse_result = Except.ok p) :
    ∀ g ∈ p.groups, g.blocks ≠ [] := by
  cases parse_result with
  | none => simp [program_from_xml] at hok
  | some root_children =>
    cases hx : get_xml_element root_children with
    | none => simp [program_from_xml, hx] at hok
    | some xml_el =>
      simp only [program_from_xml, hx, Bind.bind] at hok
      cases hbg : build_groups xml_el.children with
      | error e =>
        rw [hbg] at hok
        simp only [Except.bind] at hok
        cases hok
      | ok gs =>
        rw [hbg] at hok
        simp only [Except.bind] at hok
        injection hok with hok
        intro g hg
        have hgroups : p.groups = gs := by rw [← hok]
        exact build_groups_mem_ne_nil _ _ hbg g (hgroups ▸ hg)

/-- Witness for C10: the single group of a one-block document is nonempty. -/
theorem claim_C10_witness :
    (StatementBody.mk [Block.mk "" "" [] []]).blocks ≠ [] :=
  claim_C10 (some [XNode.element "xml" [] [XNode.element "block" [] []]])
    (Program.mk [StatementBody.mk [Block.mk "" "" [] []]])
    (by simp [program_from_xml, get_xml_element, find_element_named,
      build_groups, StatementBody.new, StatementBody.chain, Block.new,
      Block.processChildren, apply_attributes, XNode.attrs, XNode.children,
      get_next_block_element, Bind.bind, Except.bind])
    (StatementBody.mk [Block.mk "" "" [] []]) (by simp)

end Blockly
